import Mathlib

/-!
Verification of the wolfenlike raycaster (src/main.rs, src/renderer.rs).

Floating-point values that the program manipulates are modelled by `FQ`,
an exact-rational carrier extended with the IEEE special values `+inf`,
`-inf` and `nan`.  Arithmetic on finite values is exact (the claims under
study only involve inputs whose intermediate results are exactly
representable); the special values follow the IEEE-754 rules the Rust
`f32` operations implement, with the sign of zero collapsed (no claim
here distinguishes `-0.0` from `0.0`).
-/

attribute [local semireducible] Rat.add Rat.mul Rat.inv Rat.sub Rat.ofScientific

namespace Wolfenlike

/-- Model of an `f32` value: an exact rational, `+inf`, `-inf`, or `nan`. -/
inductive FQ where
  | fin : ℚ → FQ
  | inf : FQ
  | ninf : FQ
  | nan : FQ
deriving DecidableEq, Repr

/-- IEEE addition on the model (exact on finite values). -/
def fadd : FQ → FQ → FQ
  | .nan, _ => .nan
  | _, .nan => .nan
  | .inf, .ninf => .nan
  | .ninf, .inf => .nan
  | .inf, _ => .inf
  | _, .inf => .inf
  | .ninf, _ => .ninf
  | _, .ninf => .ninf
  | .fin a, .fin b => .fin (a + b)

/-- IEEE negation on the model. -/
def fneg : FQ → FQ
  | .fin a => .fin (-a)
  | .inf => .ninf
  | .ninf => .inf
  | .nan => .nan

/-- IEEE subtraction on the model. -/
def fsub (a b : FQ) : FQ := fadd a (fneg b)

/-- IEEE multiplication on the model (`0 * inf = nan`). -/
def fmul : FQ → FQ → FQ
  | .nan, _ => .nan
  | _, .nan => .nan
  | .fin a, .fin b => .fin (a * b)
  | .fin a, .inf => if a = 0 then .nan else if 0 < a then .inf else .ninf
  | .inf, .fin a => if a = 0 then .nan else if 0 < a then .inf else .ninf
  | .fin a, .ninf => if a = 0 then .nan else if 0 < a then .ninf else .inf
  | .ninf, .fin a => if a = 0 then .nan else if 0 < a then .ninf else .inf
  | .inf, .inf => .inf
  | .inf, .ninf => .ninf
  | .ninf, .inf => .ninf
  | .ninf, .ninf => .inf

/-- IEEE division on the model (`0/0 = nan`, `x/0 = ±inf` for `x ≠ 0`). -/
def fdiv : FQ → FQ → FQ
  | .nan, _ => .nan
  | _, .nan => .nan
  | .fin a, .fin b =>
      if b = 0 then (if a = 0 then .nan else if 0 < a then .inf else .ninf)
      else .fin (a / b)
  | .fin _, .inf => .fin 0
  | .fin _, .ninf => .fin 0
  | .inf, .fin b => if 0 ≤ b then .inf else .ninf
  | .ninf, .fin b => if 0 ≤ b then .ninf else .inf
  | .inf, .inf => .nan
  | .inf, .ninf => .nan
  | .ninf, .inf => .nan
  | .ninf, .ninf => .nan

/-- IEEE absolute value on the model. -/
def fabs : FQ → FQ
  | .fin a => .fin |a|
  | .inf => .inf
  | .ninf => .inf
  | .nan => .nan

/-- IEEE `<` comparison (false whenever an operand is `nan`). -/
def flt : FQ → FQ → Bool
  | .nan, _ => false
  | _, .nan => false
  | .fin a, .fin b => decide (a < b)
  | .fin _, .inf => true
  | .fin _, .ninf => false
  | .inf, _ => false
  | .ninf, .ninf => false
  | .ninf, _ => true

/-- IEEE `>=` comparison (false whenever an operand is `nan`). -/
def fge : FQ → FQ → Bool
  | .nan, _ => false
  | _, .nan => false
  | .fin a, .fin b => decide (b ≤ a)
  | .fin _, .inf => false
  | .fin _, .ninf => true
  | .inf, _ => true
  | .ninf, .ninf => true
  | .ninf, _ => false

/-- NaN is absorbing for multiplication. -/
lemma fmul_nan (x : FQ) : fmul FQ.nan x = FQ.nan := by cases x <;> rfl

/-- Truncation toward zero of a rational, as Rust float-to-int casts do. -/
def ratTrunc (q : ℚ) : ℤ := if q < 0 then -⌊-q⌋ else ⌊q⌋

/-- Rust's saturating `f32 as usize` cast: `nan → 0`, negatives → `0`,
values above `usize::MAX` → `usize::MAX`, otherwise truncation. -/
def toUsize : FQ → ℕ
  | .fin q => if q < 0 then 0 else min (ratTrunc q).toNat (2 ^ 64 - 1)
  | .inf => 2 ^ 64 - 1
  | .ninf => 0
  | .nan => 0

/-- Rust's saturating `f32 as i32` cast. -/
def toI32 : FQ → ℤ
  | .fin q => max (-(2 ^ 31)) (min (2 ^ 31 - 1) (ratTrunc q))
  | .inf => 2 ^ 31 - 1
  | .ninf => -(2 ^ 31)
  | .nan => 0

/-- Rust's wrapping `i32 as usize` cast (sign-extend then reinterpret). -/
def toUsizeWrap (i : ℤ) : ℕ := (i % (2 ^ 64 : ℤ)).toNat

/-- `grid[y][x]` as an optional lookup; `none` models the Rust panic on an
out-of-bounds `Vec` index. -/
def cellAt (grid : List (List ℕ)) (y x : ℕ) : Option ℕ :=
  (grid.get? y).bind (fun row => row.get? x)

/-- The wall grid of `App::new` in src/main.rs. -/
def appWalls : List (List ℕ) :=
  [[1, 1, 1, 1, 1, 1, 1, 1, 1, 1],
   [2, 0, 0, 0, 0, 0, 0, 0, 0, 1],
   [1, 0, 0, 0, 0, 0, 0, 0, 0, 1],
   [1, 1, 0, 1, 0, 0, 1, 0, 0, 1],
   [1, 0, 0, 1, 0, 0, 1, 0, 0, 1],
   [1, 0, 0, 1, 1, 1, 1, 0, 1, 1],
   [1, 0, 0, 1, 0, 0, 0, 0, 0, 1],
   [1, 0, 0, 1, 0, 0, 0, 0, 0, 1],
   [1, 0, 0, 0, 0, 0, 0, 0, 0, 1],
   [1, 1, 1, 1, 1, 1, 1, 1, 1, 1]]

/-- Number of textures loaded by `main` (six `push_texture` calls). -/
def texturesLen : ℕ := 6

example : fdiv (FQ.fin 0) (FQ.fin 0) = FQ.nan := by decide
example : toUsize FQ.nan = 0 := by decide
example : cellAt appWalls 1 0 = some 2 := by decide

/-! ## The DDA ray caster (`App::draw`, src/main.rs lines 287-349) -/

/-- The mutable state of the DDA loop: current map cell, the two
accumulated side distances, and which axis was stepped last. -/
structure DdaState where
  mapX : ℤ
  mapY : ℤ
  sideDistX : FQ
  sideDistY : FQ
  side : ℕ
deriving DecidableEq, Repr

/-- Width of the wall grid as the code reads it (`self.walls[0].len()`). -/
def gridW (walls : List (List ℕ)) : ℤ := (walls.getD 0 []).length

/-- Height of the wall grid (`self.walls.len()`). -/
def gridH (walls : List (List ℕ)) : ℤ := walls.length

/-- The hit condition of the DDA loop: the current cell is outside the
grid, or holds a nonzero wall value (out-of-bounds short-circuits before
the grid is read, exactly as the `||` chain in the source). -/
def hitTest (walls : List (List ℕ)) (mx my : ℤ) : Bool :=
  decide (my < 0) || decide (my ≥ gridH walls) || decide (mx < 0) ||
    decide (mx ≥ gridW walls) || decide (((cellAt walls my.toNat mx.toNat).getD 0) > 0)

/-- One iteration of the DDA loop body: step along the axis with the
smaller accumulated side distance. -/
def ddaStep (deltaX deltaY : FQ) (stepX stepY : ℤ) (s : DdaState) : DdaState :=
  if flt s.sideDistX s.sideDistY then
    { s with sideDistX := fadd s.sideDistX deltaX, mapX := s.mapX + stepX, side := 0 }
  else
    { s with sideDistY := fadd s.sideDistY deltaY, mapY := s.mapY + stepY, side := 1 }

/-- The `while hit == 0` loop, with explicit fuel; `none` means the fuel
ran out before a hit. -/
def ddaLoop (walls : List (List ℕ)) (deltaX deltaY : FQ) (stepX stepY : ℤ) :
    ℕ → DdaState → Option DdaState
  | 0, _ => none
  | fuel + 1, s =>
      let t := ddaStep deltaX deltaY stepX stepY s
      if hitTest walls t.mapX t.mapY then some t
      else ddaLoop walls deltaX deltaY stepX stepY fuel t

/-- The per-column ray cast: initial cell, delta/side distances and step
directions exactly as in the source, then the DDA loop.  The source binds
`(step_x, side_dist_x)` with one two-way `if`; the same condition selects
both components here. -/
def raycast (walls : List (List ℕ)) (px py rdx rdy : FQ) (fuel : ℕ) : Option DdaState :=
  ddaLoop walls (fabs (fdiv (FQ.fin 1) rdx)) (fabs (fdiv (FQ.fin 1) rdy))
    (if flt rdx (FQ.fin 0) then -1 else 1) (if flt rdy (FQ.fin 0) then -1 else 1) fuel
    ⟨toI32 px, toI32 py,
     if flt rdx (FQ.fin 0) then
       fmul (fsub px (FQ.fin (toI32 px))) (fabs (fdiv (FQ.fin 1) rdx))
     else
       fmul (fsub (fadd (FQ.fin (toI32 px)) (FQ.fin 1)) px) (fabs (fdiv (FQ.fin 1) rdx)),
     if flt rdy (FQ.fin 0) then
       fmul (fsub py (FQ.fin (toI32 py))) (fabs (fdiv (FQ.fin 1) rdy))
     else
       fmul (fsub (fadd (FQ.fin (toI32 py)) (FQ.fin 1)) py) (fabs (fdiv (FQ.fin 1) rdy)),
     0⟩

/-- The fisheye correction after the loop: `side_dist - delta_dist` of the
axis that caused termination. -/
def perpOf (deltaX deltaY : FQ) (s : DdaState) : FQ :=
  if s.side = 0 then fsub s.sideDistX deltaX else fsub s.sideDistY deltaY

/-- The perpendicular wall distance of a ray cast (the `ray_dist` field
stored in the z-buffer). -/
def raycastPerp (walls : List (List ℕ)) (px py rdx rdy : FQ) (fuel : ℕ) : Option FQ :=
  let deltaDistX := fabs (fdiv (FQ.fin 1) rdx)
  let deltaDistY := fabs (fdiv (FQ.fin 1) rdy)
  (raycast walls px py rdx rdy fuel).map (perpOf deltaDistX deltaDistY)

/-- The ray direction of screen column `x`
(`camera_x = 2x/W - 1`, `ray_dir = dir + plane * (-camera_x)`). -/
def columnRay (W x : ℤ) (dirX dirY planeX planeY : FQ) : FQ × FQ :=
  let cameraX := fsub (fdiv (fmul (FQ.fin 2) (FQ.fin x)) (FQ.fin W)) (FQ.fin 1)
  (fadd dirX (fmul planeX (fneg cameraX)), fadd dirY (fmul planeY (fneg cameraX)))

/-- Texture resolution for the wall pass (src/main.rs lines 438-444):
grid lookup with the wrapping `i32 as usize` cast, defaulting to the
solid sentinel `1` out of bounds, then `- 1`; a zero cell value would
make the `usize` subtraction fail, modelled as `none`. -/
def resolveTexId (walls : List (List ℕ)) (mx my : ℤ) : Option ℕ :=
  let v := ((walls.get? (toUsizeWrap my)).map
    (fun row => (row.get? (toUsizeWrap mx)).getD 1)).getD 1
  if v = 0 then none else some (v - 1)

/-! ## Movement (`App::update`, src/main.rs lines 215-249) -/

/-- The axis-decoupled collision step (lines 244-249): the horizontal
check reads `walls[player_y as usize][(player_x + move_x) as usize]`,
then the vertical check reads the grid at the already-updated x.
`none` models the Rust panic on an out-of-bounds `Vec` index. -/
def collideMove (walls : List (List ℕ)) (px py mx my : FQ) : Option (FQ × FQ) :=
  match cellAt walls (toUsize py) (toUsize (fadd px mx)) with
  | none => none
  | some vx =>
    let px' := if vx = 0 then fadd px mx else px
    match cellAt walls (toUsize (fadd py my)) (toUsize px') with
    | none => none
    | some vy => some (px', if vy = 0 then fadd py my else py)

/-- The movement vector computation (lines 215-242): combine the four
key intents, divide by the Euclidean norm unconditionally, scale by
`5 * delta`.  `fsqrt` abstracts `f32::sqrt`. -/
def moveDelta (fsqrt : FQ → FQ) (dirX dirY : FQ) (kw ks kd ka : Bool) (delta : FQ) :
    FQ × FQ :=
  let moveSpeed := fmul (FQ.fin 5) delta
  let m0 := ((FQ.fin 0), (FQ.fin 0))
  let m1 := if kw then (fadd m0.1 dirX, fadd m0.2 dirY) else m0
  let m2 := if ks then (fsub m1.1 dirX, fsub m1.2 dirY) else m1
  let m3 := if kd then (fsub m2.1 dirY, fadd m2.2 dirX) else m2
  let m4 := if ka then (fadd m3.1 dirY, fsub m3.2 dirX) else m3
  let dist := fsqrt (fadd (fmul m4.1 m4.1) (fmul m4.2 m4.2))
  (fmul (fdiv m4.1 dist) moveSpeed, fmul (fdiv m4.2 dist) moveSpeed)

/-- The whole per-frame movement step: movement vector, then collision. -/
def moveUpdate (fsqrt : FQ → FQ) (walls : List (List ℕ)) (px py dirX dirY : FQ)
    (kw ks kd ka : Bool) (delta : FQ) : Option (FQ × FQ) :=
  collideMove walls px py (moveDelta fsqrt dirX dirY kw ks kd ka delta).1
    (moveDelta fsqrt dirX dirY kw ks kd ka delta).2

/-- A conservative model of `f32::sqrt`, exact at `0` (IEEE requires
`sqrt(0) = +0`); other inputs are left unspecified as `nan`.  Only the
value at `0` is ever relied upon. -/
def sqrtAtZero : FQ → FQ :=
  fun x => if x = FQ.fin 0 then FQ.fin 0 else FQ.nan

/-! ## Entity culling (`App::update`, src/main.rs lines 260-276) -/

/-- The post-update removal check for one entity: bounds are compared
against the screen constants `WIDTH = 960` and `HEIGHT = 540`, then the
wall grid is indexed (panic modelled as `none`).  `some true` means the
entity is removed, `some false` that it survives. -/
def entityCull (walls : List (List ℕ)) (ex ey : FQ) : Option Bool :=
  if flt ex (FQ.fin 0) || fge ex (FQ.fin 960) || flt ey (FQ.fin 0) ||
      fge ey (FQ.fin 540) then
    some true
  else
    match cellAt walls (toUsize ey) (toUsize ex) with
    | none => none
    | some v => some (decide (v ≠ 0))

/-! ## Renderer primitives (src/renderer.rs) -/

/-- The pixel frame buffer: logical size and the flat RGBA byte list. -/
structure Renderer where
  width : ℤ
  height : ℤ
  frame : List ℕ
deriving DecidableEq, Repr

/-- `Renderer::draw_pixel` (lines 196-207).  The source guard is
`x < 0 || x > self.width || y < 0 || y >= self.height` — note `>` on the
x side.  A surviving write whose byte offset falls outside the buffer is
the Rust panic, modelled as `none`. -/
def draw_pixel (r : Renderer) (color : List ℕ) (x y : ℤ) : Option Renderer :=
  if x < 0 ∨ x > r.width ∨ y < 0 ∨ y ≥ r.height then some r
  else
    let offset := ((y * r.width + x) * 4).toNat
    if offset + 3 < r.frame.length then
      some { r with frame :=
        ((((r.frame.set offset (color.getD 0 0)).set (offset + 1) (color.getD 1 0)).set
          (offset + 2) (color.getD 2 0)).set (offset + 3) (color.getD 3 0)) }
    else none

/-- The clipped height `actual_height` computed by `draw_vert_line`. -/
def vertActual (h topY height : ℤ) : ℤ :=
  if topY + height > h then h - topY
  else if topY < 0 then max (topY + height) 0
  else height

/-- The start chunk index of the vertical-line iterator:
`x.clamp(0, w-1) + w * top_y.clamp(0, h)`. -/
def vertSkip (w h x topY : ℤ) : ℕ :=
  (min (max x 0) (w - 1) + w * min (max topY 0) h).toNat

/-- The number of pixels the vertical-line iterator writes: `take` of the
wrapping `actual_height as usize` cast, capped by the chunks remaining in
the buffer when stepping by `w`. -/
def vertCount (w h x topY height : ℤ) : ℕ :=
  min ((vertActual h topY height % (2 ^ 64 : ℤ)).toNat)
    (if (w * h).toNat ≤ vertSkip w h x topY then 0
     else ((w * h).toNat - vertSkip w h x topY + (w.toNat - 1)) / w.toNat)

/-- `Renderer::draw_vert_line` (lines 43-68), abstracted to its observable
effect: the returned value and the list of pixel indices the
`skip/step_by/take` iterator writes. -/
def draw_vert_line (w h x topY height : ℤ) : ℤ × List ℕ :=
  if x < 0 ∨ x ≥ w ∨ topY ≥ h ∨ topY + height < 0 then (-1, [])
  else (vertActual h topY height,
    (List.range (vertCount w h x topY height)).map
      (fun k => vertSkip w h x topY + k * w.toNat))

/-- The clipped width `actual_width` computed by `draw_hori_line`. -/
def horiActual (w leftX width : ℤ) : ℤ :=
  if leftX + width > w then w - leftX
  else if leftX < 0 then max (leftX + width) 0
  else width

/-- The start chunk index of the horizontal-line iterator. -/
def horiSkip (w h leftX y : ℤ) : ℕ :=
  (min (max leftX 0) (w - 1) + w * min (max y 0) h).toNat

/-- The number of pixels the horizontal-line iterator writes: `take` of
the wrapping cast, capped by the chunks remaining in the buffer. -/
def horiCount (w h leftX y width : ℤ) : ℕ :=
  min ((horiActual w leftX width % (2 ^ 64 : ℤ)).toNat)
    ((w * h).toNat - horiSkip w h leftX y)

/-- `Renderer::draw_hori_line` (lines 71-95), same observable-effect
abstraction; here the iterator writes consecutive pixel indices. -/
def draw_hori_line (w h leftX y width : ℤ) : ℤ × List ℕ :=
  if y < 0 ∨ y ≥ h ∨ leftX ≥ w ∨ leftX + width < 0 then (-1, [])
  else (horiActual w leftX width,
    (List.range (horiCount w h leftX y width)).map (fun k => horiSkip w h leftX y + k))

/-! ## Sprite pass (`App::draw`, src/main.rs lines 528-563) -/

/-- The half-open integer range `a..b` of a Rust range expression. -/
def intRange (a b : ℤ) : List ℤ := (List.range (b - a).toNat).map (fun k => a + k)

/-- The accepted sprite stripes: candidate x in
`draw_start_x.clamp(0, W-1) .. draw_end_x.clamp(0, W-1)` kept when
`z_buffer[W - x - 1].ray_dist >= transform_y`.  `zbuf` carries the
`ray_dist` fields of the z-buffer (its other fields are not read here);
every use keeps the mirrored index in range, so the lookup defaults
rather than panics. -/
def spriteStripes (zbuf : List FQ) (W dsx dex : ℤ) (ty : FQ) : List ℤ :=
  (intRange (min (max dsx 0) (W - 1)) (min (max dex 0) (W - 1))).filter
    (fun x => fge (zbuf.getD (W - x - 1).toNat FQ.nan) ty)

/-- The screen columns the subsequent `draw_sub_texture` call covers: a
contiguous block of `stripes.len() + 1` columns starting at
`W - last - 2`, clipped per pixel to the viewport; empty when no stripe
was accepted. -/
def spriteDrawnCols (W : ℤ) (stripes : List ℤ) : List ℤ :=
  match stripes.getLast? with
  | none => []
  | some last =>
      (intRange (W - last - 2) (W - last - 2 + ((stripes.length : ℤ) + 1))).filter
        (fun c => decide (0 ≤ c ∧ c < W))

/-! ## Helper facts -/

/-- The DDA loop returns a state only when the hit condition holds for it. -/
lemma ddaLoop_hitTest (walls : List (List ℕ)) (dX dY : FQ) (sx sy : ℤ) :
    ∀ fuel (s s' : DdaState), ddaLoop walls dX dY sx sy fuel s = some s' →
      hitTest walls s'.mapX s'.mapY = true := by
  intro fuel
  induction fuel with
  | zero => intro s s' h; simp [ddaLoop] at h
  | succ n ih =>
      intro s s' h
      simp only [ddaLoop] at h
      by_cases hh : hitTest walls (ddaStep dX dY sx sy s).mapX (ddaStep dX dY sx sy s).mapY
      · rw [if_pos hh] at h
        cases h
        exact hh
      · rw [if_neg hh] at h
        exact ih _ _ h

/-- The state returned by the DDA loop is one `ddaStep` away from a state
that is either the initial one or one that failed the hit test. -/
lemma ddaLoop_preState (walls : List (List ℕ)) (dX dY : FQ) (sx sy : ℤ) :
    ∀ fuel (s s' : DdaState), ddaLoop walls dX dY sx sy fuel s = some s' →
      ∃ t, s' = ddaStep dX dY sx sy t ∧
        (t = s ∨ hitTest walls t.mapX t.mapY = false) := by
  intro fuel
  induction fuel with
  | zero => intro s s' h; simp [ddaLoop] at h
  | succ n ih =>
      intro s s' h
      simp only [ddaLoop] at h
      by_cases hh : hitTest walls (ddaStep dX dY sx sy s).mapX (ddaStep dX dY sx sy s).mapY
      · rw [if_pos hh] at h
        cases h
        exact ⟨s, rfl, Or.inl rfl⟩
      · rw [if_neg hh] at h
        obtain ⟨t, ht, hor⟩ := ih _ _ h
        refine ⟨t, ht, ?_⟩
        rcases hor with h1 | h1
        · subst h1
          exact Or.inr (by simpa using hh)
        · exact Or.inr h1

/-- Accumulated displacement of the DDA loop: the returned cell is the
start cell advanced a positive total number of steps, each axis moving
only in its fixed step direction. -/
lemma ddaLoop_displacement (walls : List (List ℕ)) (dX dY : FQ) (sx sy : ℤ) :
    ∀ fuel (s s' : DdaState), ddaLoop walls dX dY sx sy fuel s = some s' →
      ∃ nx ny : ℕ, 1 ≤ nx + ny ∧ s'.mapX = s.mapX + sx * nx ∧ s'.mapY = s.mapY + sy * ny := by
  intro fuel
  induction fuel with
  | zero => intro s s' h; simp [ddaLoop] at h
  | succ n ih =>
      intro s s' h
      simp only [ddaLoop] at h
      have hstep : ∀ u : DdaState,
          ((ddaStep dX dY sx sy u).mapX = u.mapX + sx ∧ (ddaStep dX dY sx sy u).mapY = u.mapY) ∨
          ((ddaStep dX dY sx sy u).mapX = u.mapX ∧ (ddaStep dX dY sx sy u).mapY = u.mapY + sy) := by
        intro u
        by_cases hb : flt u.sideDistX u.sideDistY
        · exact Or.inl (by simp [ddaStep, hb])
        · exact Or.inr (by simp [ddaStep, hb])
      by_cases hh : hitTest walls (ddaStep dX dY sx sy s).mapX (ddaStep dX dY sx sy s).mapY
      · rw [if_pos hh] at h
        cases h
        rcases hstep s with ⟨h1, h2⟩ | ⟨h1, h2⟩
        · exact ⟨1, 0, by omega, by rw [h1]; push_cast; ring, by rw [h2]; push_cast; ring⟩
        · exact ⟨0, 1, by omega, by rw [h1]; push_cast; ring, by rw [h2]; push_cast; ring⟩
      · rw [if_neg hh] at h
        obtain ⟨nx, ny, hpos, hx, hy⟩ := ih _ _ h
        rcases hstep s with ⟨h1, h2⟩ | ⟨h1, h2⟩
        · exact ⟨nx + 1, ny, by omega,
            by rw [hx, h1]; push_cast; ring, by rw [hy, h2]⟩
        · exact ⟨nx, ny + 1, by omega,
            by rw [hx, h1], by rw [hy, h2]; push_cast; ring⟩

example : raycast appWalls (FQ.fin (3/2)) (FQ.fin (3/2)) (FQ.fin (-1)) (FQ.fin 0) 20 =
    some ⟨0, 1, FQ.fin (3/2), FQ.inf, 0⟩ := by decide

/-! ## Claims C5 and C7 (code bugs) -/

/-- C5: the claim says an entity is removed exactly when it leaves the map
extent or lands on a solid cell, and that the check never fails.  The code
instead bound-checks against the screen constants 960x540 and then indexes
the 10x10 wall grid: an entity at (10.5, 5.5) — outside the map extent yet
inside the screen bounds — makes the removal check panic. -/
theorem claim_C5_cull_panics :
    entityCull appWalls (FQ.fin (21/2)) (FQ.fin (11/2)) = none ∧
    gridW appWalls ≤ ratTrunc (21/2) := by decide

/-- C7: the out-of-bounds guard of `draw_pixel` tests `x > width` instead
of `x >= width`.  On a 2x2 renderer, the call at (2, 1) — out of bounds,
so the claim demands an unchanged buffer — panics instead, and the call at
(2, 0) writes into the byte range of pixel (0, 1). -/
theorem claim_C7_draw_pixel_off_by_one :
    draw_pixel ⟨2, 2, List.replicate 16 0⟩ [9, 9, 9, 9] 2 1 = none ∧
    draw_pixel ⟨2, 2, List.replicate 16 0⟩ [9, 9, 9, 9] 2 0 ≠
      some ⟨2, 2, List.replicate 16 0⟩ ∧
    (⟨2, 2, List.replicate 16 0⟩ : Renderer).width ≤ 2 := by decide

/-! ## Claim C2 (axis-decoupled collision) -/

/-- C2 counterexample: from (2.5, 2.5) with displacement (1, 1) on the
App's map, the wall cell at (floor x, floor (y + dy)) = (2, 3) is empty,
yet the y coordinate does not change: the code's vertical check consults
the already-updated x (3.5, landing in the solid cell (3, 3)). -/
theorem claim_C2_counterexample :
    collideMove appWalls (FQ.fin (5/2)) (FQ.fin (5/2)) (FQ.fin 1) (FQ.fin 1) =
      some (FQ.fin (7/2), FQ.fin (5/2)) ∧
    cellAt appWalls (toUsize (fadd (FQ.fin (5/2)) (FQ.fin 1))) (toUsize (FQ.fin (5/2))) =
      some 0 ∧
    FQ.fin (5/2) ≠ fadd (FQ.fin (5/2)) (FQ.fin 1) := by decide

/-- C2 (amended): the x coordinate becomes `x + dx` exactly when the cell
at (trunc (x + dx), trunc y) is empty and is left unchanged otherwise; the
y coordinate becomes `y + dy` exactly when the cell at
(trunc x', trunc (y + dy)) is empty, where x' is the x coordinate
after the horizontal half-step (not the original x). -/
theorem claim_C2_axis_decoupled (walls : List (List ℕ)) (px py dx dy : FQ)
    (out : FQ × FQ) (h : collideMove walls px py dx dy = some out) :
    ∃ vx vy : ℕ,
      cellAt walls (toUsize py) (toUsize (fadd px dx)) = some vx ∧
      out.1 = (if vx = 0 then fadd px dx else px) ∧
      cellAt walls (toUsize (fadd py dy)) (toUsize out.1) = some vy ∧
      out.2 = (if vy = 0 then fadd py dy else py) := by
  unfold collideMove at h
  cases hvx : cellAt walls (toUsize py) (toUsize (fadd px dx)) with
  | none => rw [hvx] at h; cases h
  | some vx =>
      rw [hvx] at h
      simp only at h
      cases hvy : cellAt walls (toUsize (fadd py dy))
          (toUsize (if vx = 0 then fadd px dx else px)) with
      | none => rw [hvy] at h; cases h
      | some vy =>
          rw [hvy] at h
          simp only [Option.some.injEq] at h
          subst h
          exact ⟨vx, vy, rfl, rfl, hvy, rfl⟩

/-- C2 witness: the amended statement applied at a concrete in-map move. -/
theorem claim_C2_witness :
    ∃ vx vy : ℕ,
      cellAt appWalls (toUsize (FQ.fin (5/2))) (toUsize (fadd (FQ.fin (5/2)) (FQ.fin 1))) =
        some vx ∧
      (FQ.fin (7/2), FQ.fin (5/2)).1 =
        (if vx = 0 then fadd (FQ.fin (5/2)) (FQ.fin 1) else FQ.fin (5/2)) ∧
      cellAt appWalls (toUsize (fadd (FQ.fin (5/2)) (FQ.fin 1)))
        (toUsize (FQ.fin (7/2), FQ.fin (5/2)).1) = some vy ∧
      (FQ.fin (7/2), FQ.fin (5/2)).2 =
        (if vy = 0 then fadd (FQ.fin (5/2)) (FQ.fin 1) else FQ.fin (5/2)) :=
  claim_C2_axis_decoupled appWalls (FQ.fin (5/2)) (FQ.fin (5/2)) (FQ.fin 1) (FQ.fin 1)
    (FQ.fin (7/2), FQ.fin (5/2)) (by decide)

/-! ## Claim C3 (zero-intent movement) -/

/-- Saturating-cast bound used by the movement proofs. -/
lemma toUsize_fin_lt_ten (q : ℚ) (h0 : 0 ≤ q) (h10 : q < 10) : toUsize (FQ.fin q) < 10 := by
  simp only [toUsize, ratTrunc]
  rw [if_neg (not_lt.mpr h0), if_neg (not_lt.mpr h0)]
  have h1 : ⌊q⌋ < 10 := by
    rw [Int.floor_lt]
    exact_mod_cast h10
  have h2 : (0 : ℤ) ≤ ⌊q⌋ := Int.floor_nonneg.mpr h0
  omega

/-- C3 counterexample: with no movement intent the combined vector is
(0, 0), yet the code still divides by its norm, producing a NaN
displacement — the normalization is not guarded by a nonzero test. -/
theorem claim_C3_counterexample :
    moveDelta sqrtAtZero (FQ.fin (-1)) (FQ.fin 0) false false false false (FQ.fin (1/60)) =
      (FQ.nan, FQ.nan) ∧ FQ.nan ≠ FQ.fin 0 := by decide

/-- C3 (amended): the movement vector is normalized unconditionally, so a
zero intent yields a NaN displacement; the camera position is nevertheless
left exactly unchanged, because the saturating `f32 as usize` cast sends
NaN to index 0 and both column 0 and row 0 of the App's map are solid. -/
theorem claim_C3_no_intent_no_move (fsqrt : FQ → FQ) (hs : fsqrt (FQ.fin 0) = FQ.fin 0)
    (dirX dirY delta : FQ) (qx qy : ℚ)
    (hx0 : 0 ≤ qx) (hx : qx < 10) (hy0 : 0 ≤ qy) (hy : qy < 10) :
    moveUpdate fsqrt appWalls (FQ.fin qx) (FQ.fin qy) dirX dirY false false false false delta =
      some (FQ.fin qx, FQ.fin qy) := by
  have hkey : fadd (fmul (FQ.fin 0) (FQ.fin 0)) (fmul (FQ.fin 0) (FQ.fin 0)) = FQ.fin 0 := by
    decide
  have hmv : moveDelta fsqrt dirX dirY false false false false delta = (FQ.nan, FQ.nan) := by
    have h1 : moveDelta fsqrt dirX dirY false false false false delta =
        (fmul (fdiv (FQ.fin 0)
            (fsqrt (fadd (fmul (FQ.fin 0) (FQ.fin 0)) (fmul (FQ.fin 0) (FQ.fin 0)))))
          (fmul (FQ.fin 5) delta),
         fmul (fdiv (FQ.fin 0)
            (fsqrt (fadd (fmul (FQ.fin 0) (FQ.fin 0)) (fmul (FQ.fin 0) (FQ.fin 0)))))
          (fmul (FQ.fin 5) delta)) := rfl
    have hdiv : fdiv (FQ.fin 0) (FQ.fin 0) = FQ.nan := by decide
    rw [h1, hkey, hs, hdiv, fmul_nan]
  have hcol : ∀ i < 10, ∃ v, cellAt appWalls i 0 = some v ∧ v ≠ 0 := by decide
  have hrow : ∀ j < 10, cellAt appWalls 0 j = some 1 := by decide
  obtain ⟨v, hv, hvne⟩ := hcol (toUsize (FQ.fin qy)) (toUsize_fin_lt_ten qy hy0 hy)
  have hc : collideMove appWalls (FQ.fin qx) (FQ.fin qy) FQ.nan FQ.nan =
      some (FQ.fin qx, FQ.fin qy) := by
    unfold collideMove
    have hx1 : toUsize (fadd (FQ.fin qx) FQ.nan) = 0 := rfl
    have hy1 : toUsize (fadd (FQ.fin qy) FQ.nan) = 0 := rfl
    simp only [hx1, hy1, hv]
    simp only [if_neg hvne]
    rw [hrow (toUsize (FQ.fin qx)) (toUsize_fin_lt_ten qx hx0 hx)]
    simp
  unfold moveUpdate
  rw [hmv]
  exact hc

/-- C3 witness: the amended statement applied at the App's initial camera
cell with the conservative sqrt model. -/
theorem claim_C3_witness :
    moveUpdate sqrtAtZero appWalls (FQ.fin (3/2)) (FQ.fin (3/2)) (FQ.fin (-1)) (FQ.fin 0)
      false false false false (FQ.fin (1/60)) = some (FQ.fin (3/2), FQ.fin (3/2)) :=
  claim_C3_no_intent_no_move sqrtAtZero (by decide) (FQ.fin (-1)) (FQ.fin 0) (FQ.fin (1/60))
    (3/2) (3/2) (by norm_num) (by norm_num) (by norm_num) (by norm_num)

/-! ## Claim C4 (sprite occlusion) -/

/-- A z-buffer on which the sprite pass misbehaves: distances 2 except at
indices 4 and 7, where the wall is at distance 1/2. -/
def zbufCex : List FQ :=
  [FQ.fin 2, FQ.fin 2, FQ.fin 2, FQ.fin 2, FQ.fin (1/2),
   FQ.fin 2, FQ.fin 2, FQ.fin (1/2), FQ.fin 2, FQ.fin 2]

/-- C4 counterexample: for a sprite at depth 1 spanning columns 2..5 of a
10-column viewport, column 4 is accepted and drawn although the z-buffer
entry of column 4 itself holds distance 1/2 < 1 — the filter consulted
the mirrored entry `z_buffer[W - x - 1]` instead. -/
theorem claim_C4_counterexample :
    (4 : ℤ) ∈ spriteStripes zbufCex 10 2 5 (FQ.fin 1) ∧
    (4 : ℤ) ∈ spriteDrawnCols 10 (spriteStripes zbufCex 10 2 5 (FQ.fin 1)) ∧
    fge (zbufCex.getD 4 FQ.nan) (FQ.fin 1) = false := by decide

/-- C4 (amended): a candidate stripe x is accepted exactly when it lies in
the clamped horizontal extent and the z-buffer entry at the mirrored index
`W - x - 1` has distance ≥ the sprite depth; the drawn block is derived
from the accepted stripes, so a sprite rejected on every candidate column
draws zero pixels. -/
theorem claim_C4_occlusion (zbuf : List FQ) (W dsx dex : ℤ) (ty : FQ) :
    (∀ x : ℤ, x ∈ spriteStripes zbuf W dsx dex ty ↔
      x ∈ intRange (min (max dsx 0) (W - 1)) (min (max dex 0) (W - 1)) ∧
        fge (zbuf.getD (W - x - 1).toNat FQ.nan) ty = true)
    ∧ ((∀ x ∈ intRange (min (max dsx 0) (W - 1)) (min (max dex 0) (W - 1)),
          fge (zbuf.getD (W - x - 1).toNat FQ.nan) ty = false) →
        spriteStripes zbuf W dsx dex ty = [] ∧
        spriteDrawnCols W (spriteStripes zbuf W dsx dex ty) = []) := by
  constructor
  · intro x
    simp [spriteStripes, List.mem_filter]
  · intro hall
    have h1 : spriteStripes zbuf W dsx dex ty = [] := by
      unfold spriteStripes
      rw [List.filter_eq_nil_iff]
      intro a ha
      rw [hall a ha]
      simp
    exact ⟨h1, by rw [h1]; rfl⟩

/-- C4 witness: the amended statement applied to a z-buffer whose walls
are all nearer than the sprite — nothing is drawn. -/
theorem claim_C4_witness :
    spriteStripes (List.replicate 10 (FQ.fin (1/2))) 10 2 5 (FQ.fin 1) = [] ∧
    spriteDrawnCols 10 (spriteStripes (List.replicate 10 (FQ.fin (1/2))) 10 2 5 (FQ.fin 1)) =
      [] :=
  (claim_C4_occlusion (List.replicate 10 (FQ.fin (1/2))) 10 2 5 (FQ.fin 1)).2 (by decide)

/-! ## Claim C6 (perpendicular distance) -/

/-- C6: the perpendicular distance `side_dist - delta_dist` of the
terminating axis equals the pre-increment accumulated side distance
(exact arithmetic on finite values), and an axis-aligned center-column
ray from the App's start position returns exactly the distance 1/2 to the
near face (at x = 1) of the wall cell (0, 1) it hits. -/
theorem claim_C6_perp_pre_increment :
    (∀ (dX dY : FQ) (sx sy : ℤ) (s : DdaState) (a d : ℚ),
        flt s.sideDistX s.sideDistY = true → s.sideDistX = FQ.fin a → dX = FQ.fin d →
        perpOf dX dY (ddaStep dX dY sx sy s) = FQ.fin a)
    ∧ (∀ (dX dY : FQ) (sx sy : ℤ) (s : DdaState) (a d : ℚ),
        flt s.sideDistX s.sideDistY = false → s.sideDistY = FQ.fin a → dY = FQ.fin d →
        perpOf dX dY (ddaStep dX dY sx sy s) = FQ.fin a)
    ∧ (columnRay 960 480 (FQ.fin (-1)) (FQ.fin 0) (FQ.fin 0) (FQ.fin (8/9)) =
          (FQ.fin (-1), FQ.fin 0)
        ∧ raycast appWalls (FQ.fin (3/2)) (FQ.fin (3/2)) (FQ.fin (-1)) (FQ.fin 0) 20 =
          some ⟨0, 1, FQ.fin (3/2), FQ.inf, 0⟩
        ∧ raycastPerp appWalls (FQ.fin (3/2)) (FQ.fin (3/2)) (FQ.fin (-1)) (FQ.fin 0) 20 =
          some (FQ.fin (1/2))
        ∧ (1/2 : ℚ) = 3/2 - ((0 : ℚ) + 1)) := by
  refine ⟨?_, ?_, by decide⟩
  · intro dX dY sx sy s a d hflt hsx hdx
    unfold ddaStep
    rw [if_pos hflt]
    unfold perpOf
    simp only [if_pos rfl]
    rw [hsx, hdx]
    show fadd (fadd (FQ.fin a) (FQ.fin d)) (fneg (FQ.fin d)) = FQ.fin a
    simp only [fadd, fneg]
    congr 1
    ring
  · intro dX dY sx sy s a d hflt hsy hdy
    unfold ddaStep
    rw [if_neg (by rw [hflt]; exact Bool.false_ne_true)]
    unfold perpOf
    simp only [if_neg one_ne_zero]
    rw [hsy, hdy]
    show fadd (fadd (FQ.fin a) (FQ.fin d)) (fneg (FQ.fin d)) = FQ.fin a
    simp only [fadd, fneg]
    congr 1
    ring

/-- C6 witness: the pre-increment property applied at a concrete step. -/
theorem claim_C6_witness :
    perpOf (FQ.fin 1) FQ.inf
      (ddaStep (FQ.fin 1) FQ.inf (-1) 1 ⟨1, 1, FQ.fin (1/2), FQ.inf, 0⟩) = FQ.fin (1/2) :=
  claim_C6_perp_pre_increment.1 (FQ.fin 1) FQ.inf (-1) 1 ⟨1, 1, FQ.fin (1/2), FQ.inf, 0⟩
    (1/2) 1 (by decide) rfl rfl

/-! ## Claim C1 (DDA termination) -/

/-- Remaining in-direction cells before the walk leaves the band `[0, w)`:
the termination measure of one axis of the DDA loop. -/
def axisMeasure (step w m : ℤ) : ℕ := (if step = 1 then w - m else m + 1).toNat

lemma axisMeasure_one (w m : ℤ) : axisMeasure 1 w m = (w - m).toNat := by
  simp [axisMeasure]

lemma axisMeasure_neg_one (w m : ℤ) : axisMeasure (-1) w m = (m + 1).toNat := by
  simp [axisMeasure]

/-- Fuel bound for the DDA loop: from an in-bounds cell, fuel covering the
two axis measures is enough to reach a hit. -/
lemma ddaLoop_isSome (walls : List (List ℕ)) (dX dY : FQ) (sx sy : ℤ)
    (hsx : sx = 1 ∨ sx = -1) (hsy : sy = 1 ∨ sy = -1) :
    ∀ fuel (s : DdaState), 0 ≤ s.mapX → s.mapX < gridW walls →
      0 ≤ s.mapY → s.mapY < gridH walls →
      axisMeasure sx (gridW walls) s.mapX + axisMeasure sy (gridH walls) s.mapY ≤ fuel →
      (ddaLoop walls dX dY sx sy fuel s).isSome := by
  intro fuel
  induction fuel with
  | zero =>
      intro s hx0 hxw hy0 hyh hm
      exfalso
      rcases hsx with h | h <;> rcases hsy with h' | h' <;> subst h <;> subst h' <;>
        simp only [axisMeasure_one, axisMeasure_neg_one] at hm <;> omega
  | succ n ih =>
      intro s hx0 hxw hy0 hyh hm
      simp only [ddaLoop]
      by_cases hh : hitTest walls (ddaStep dX dY sx sy s).mapX (ddaStep dX dY sx sy s).mapY
      · rw [if_pos hh]
        rfl
      · rw [if_neg hh]
        have hnb : ¬(ddaStep dX dY sx sy s).mapY < 0 ∧
            ¬(ddaStep dX dY sx sy s).mapY ≥ gridH walls ∧
            ¬(ddaStep dX dY sx sy s).mapX < 0 ∧
            ¬(ddaStep dX dY sx sy s).mapX ≥ gridW walls := by
          unfold hitTest at hh
          simp only [Bool.or_eq_true, decide_eq_true_eq, not_or] at hh
          obtain ⟨⟨⟨⟨hA, hB⟩, hC⟩, hD⟩, _⟩ := hh
          exact ⟨hA, hB, hC, hD⟩
        have hstep : ((ddaStep dX dY sx sy s).mapX = s.mapX + sx ∧
              (ddaStep dX dY sx sy s).mapY = s.mapY) ∨
            ((ddaStep dX dY sx sy s).mapX = s.mapX ∧
              (ddaStep dX dY sx sy s).mapY = s.mapY + sy) := by
          by_cases hb : flt s.sideDistX s.sideDistY
          · exact Or.inl (by simp [ddaStep, hb])
          · exact Or.inr (by simp [ddaStep, hb])
        apply ih
        · omega
        · omega
        · omega
        · omega
        · rcases hstep with ⟨e1, e2⟩ | ⟨e1, e2⟩ <;> rw [e1, e2] <;> rw [e1, e2] at hnb <;>
            rcases hsx with h | h <;> rcases hsy with h' | h' <;> subst h <;> subst h' <;>
            simp only [axisMeasure_one, axisMeasure_neg_one] at hm ⊢ <;> omega


/-- C1: for a camera whose cell lies inside the wall grid (in particular
inside any room enclosed by solid cells) and any ray direction, the DDA
loop reaches a hit within `gridW + gridH` steps: out-of-bounds cells count
as solid, so the monotone walk must stop. -/
theorem claim_C1_dda_terminates (walls : List (List ℕ)) (px py rdx rdy : FQ)
    (hx0 : 0 ≤ toI32 px) (hxw : toI32 px < gridW walls)
    (hy0 : 0 ≤ toI32 py) (hyh : toI32 py < gridH walls) :
    (raycast walls px py rdx rdy ((gridW walls + gridH walls).toNat)).isSome := by
  unfold raycast
  by_cases hb1 : flt rdx (FQ.fin 0) = true <;> by_cases hb2 : flt rdy (FQ.fin 0) = true
  · rw [if_pos hb1, if_pos hb1, if_pos hb2, if_pos hb2]
    exact ddaLoop_isSome walls _ _ _ _ (Or.inr rfl) (Or.inr rfl) _ _ hx0 hxw hy0 hyh
      (by simp only [axisMeasure_neg_one]; omega)
  · rw [if_pos hb1, if_pos hb1, if_neg hb2, if_neg hb2]
    exact ddaLoop_isSome walls _ _ _ _ (Or.inr rfl) (Or.inl rfl) _ _ hx0 hxw hy0 hyh
      (by simp only [axisMeasure_neg_one, axisMeasure_one]; omega)
  · rw [if_neg hb1, if_neg hb1, if_pos hb2, if_pos hb2]
    exact ddaLoop_isSome walls _ _ _ _ (Or.inl rfl) (Or.inr rfl) _ _ hx0 hxw hy0 hyh
      (by simp only [axisMeasure_neg_one, axisMeasure_one]; omega)
  · rw [if_neg hb1, if_neg hb1, if_neg hb2, if_neg hb2]
    exact ddaLoop_isSome walls _ _ _ _ (Or.inl rfl) (Or.inl rfl) _ _ hx0 hxw hy0 hyh
      (by simp only [axisMeasure_one]; omega)

/-- C1 witness: the bound applied to the App's map from the start cell. -/
theorem claim_C1_witness :
    (raycast appWalls (FQ.fin (3/2)) (FQ.fin (3/2)) (FQ.fin (-1)) (FQ.fin 0)
      ((gridW appWalls + gridH appWalls).toNat)).isSome :=
  claim_C1_dda_terminates appWalls (FQ.fin (3/2)) (FQ.fin (3/2)) (FQ.fin (-1)) (FQ.fin 0)
    (by decide) (by decide) (by decide) (by decide)

/-- C10: whatever ray result the caster returns, its hit cell differs from
the cell containing the camera — the loop advances before the first hit
test, and each axis only ever moves in its fixed step direction. -/
theorem claim_C10_hit_cell_moves (walls : List (List ℕ)) (px py rdx rdy : FQ)
    (fuel : ℕ) (s : DdaState) (h : raycast walls px py rdx rdy fuel = some s) :
    s.mapX ≠ toI32 px ∨ s.mapY ≠ toI32 py := by
  unfold raycast at h
  obtain ⟨nx, ny, hpos, hx, hy⟩ := ddaLoop_displacement walls _ _ _ _ fuel _ s h
  dsimp only at hx hy
  by_cases hb1 : flt rdx (FQ.fin 0) = true <;> by_cases hb2 : flt rdy (FQ.fin 0) = true
  · rw [if_pos hb1] at hx; rw [if_pos hb2] at hy; omega
  · rw [if_pos hb1] at hx; rw [if_neg hb2] at hy; omega
  · rw [if_neg hb1] at hx; rw [if_pos hb2] at hy; omega
  · rw [if_neg hb1] at hx; rw [if_neg hb2] at hy; omega

/-- C10 witness: the theorem applied to a concrete ray of the App map. -/
theorem claim_C10_witness :
    DdaState.mapX ⟨0, 1, FQ.fin (3/2), FQ.inf, 0⟩ ≠ toI32 (FQ.fin (3/2)) ∨
    DdaState.mapY ⟨0, 1, FQ.fin (3/2), FQ.inf, 0⟩ ≠ toI32 (FQ.fin (3/2)) :=
  claim_C10_hit_cell_moves appWalls (FQ.fin (3/2)) (FQ.fin (3/2)) (FQ.fin (-1)) (FQ.fin 0)
    20 ⟨0, 1, FQ.fin (3/2), FQ.inf, 0⟩ (by decide)

/-- Every state one `ddaStep` takes changes exactly one axis by its step. -/
lemma ddaStep_moves (dX dY : FQ) (sx sy : ℤ) (t : DdaState) :
    ((ddaStep dX dY sx sy t).mapX = t.mapX + sx ∧ (ddaStep dX dY sx sy t).mapY = t.mapY) ∨
    ((ddaStep dX dY sx sy t).mapX = t.mapX ∧ (ddaStep dX dY sx sy t).mapY = t.mapY + sy) := by
  by_cases hb : flt t.sideDistX t.sideDistY
  · exact Or.inl (by simp [ddaStep, hb])
  · exact Or.inr (by simp [ddaStep, hb])

/-- The saturating `f32 as i32` cast lands in the i32 range. -/
lemma toI32_bounds (f : FQ) : -(2 ^ 31) ≤ toI32 f ∧ toI32 f ≤ 2 ^ 31 - 1 := by
  cases f <;> simp only [toI32] <;> omega

/-- A wall-grid row index at or beyond the ten rows resolves to the solid
sentinel texture id 0. -/
lemma resolveTexId_row_oob (mx my : ℤ) (h : 10 ≤ toUsizeWrap my) :
    resolveTexId appWalls mx my = some 0 := by
  unfold resolveTexId
  rw [List.get?_eq_none.mpr (by rw [show appWalls.length = 10 from rfl]; exact h)]
  rfl

/-- A wall-grid column index at or beyond the ten columns resolves to the
solid sentinel texture id 0. -/
lemma resolveTexId_col_oob (mx my : ℤ) (hy : toUsizeWrap my < 10) (hx : 10 ≤ toUsizeWrap mx) :
    resolveTexId appWalls mx my = some 0 := by
  have hrow : ∀ i < 10, ∃ row, appWalls.get? i = some row ∧ row.length = 10 := by decide
  obtain ⟨row, hr, hlen⟩ := hrow _ hy
  unfold resolveTexId
  rw [hr]
  simp only [Option.map_some', Option.getD_some]
  rw [List.get?_eq_none.mpr (by rw [hlen]; exact hx)]
  rfl

/-- C9: the hit cell of any ray the caster produces over the App map
resolves to a texture id without failing, and the id indexes within the
six-entry texture table. -/
theorem claim_C9_texture_resolution (px py rdx rdy : FQ) (fuel : ℕ) (s : DdaState)
    (h : raycast appWalls px py rdx rdy fuel = some s) :
    ∃ id, resolveTexId appWalls s.mapX s.mapY = some id ∧ id < texturesLen := by
  unfold raycast at h
  have hhit := ddaLoop_hitTest appWalls _ _ _ _ fuel _ s h
  have hpre := ddaLoop_preState appWalls _ _ _ _ fuel _ s h
  have hbound : -(2 ^ 31) - 1 ≤ s.mapX ∧ s.mapX ≤ 2 ^ 31 ∧
      -(2 ^ 31) - 1 ≤ s.mapY ∧ s.mapY ≤ 2 ^ 31 := by
    obtain ⟨t, hts, hcase⟩ := hpre
    have htb : -(2 ^ 31) ≤ t.mapX ∧ t.mapX ≤ 2 ^ 31 - 1 ∧
        -(2 ^ 31) ≤ t.mapY ∧ t.mapY ≤ 2 ^ 31 - 1 := by
      rcases hcase with he | hf
      · subst he
        dsimp only
        exact ⟨(toI32_bounds px).1, (toI32_bounds px).2,
          (toI32_bounds py).1, (toI32_bounds py).2⟩
      · unfold hitTest at hf
        simp only [Bool.or_eq_false_iff, decide_eq_false_iff_not, not_lt, not_le] at hf
        rw [show gridW appWalls = 10 from rfl, show gridH appWalls = 10 from rfl] at hf
        omega
    have hsx : (if flt rdx (FQ.fin 0) then (-1 : ℤ) else 1) = 1 ∨
        (if flt rdx (FQ.fin 0) then (-1 : ℤ) else 1) = -1 := by
      split_ifs <;> simp
    have hsy : (if flt rdy (FQ.fin 0) then (-1 : ℤ) else 1) = 1 ∨
        (if flt rdy (FQ.fin 0) then (-1 : ℤ) else 1) = -1 := by
      split_ifs <;> simp
    subst hts
    rcases ddaStep_moves _ _ _ _ t with ⟨e1, e2⟩ | ⟨e1, e2⟩ <;> rw [e1, e2] <;>
      rcases hsx with hx | hx <;> rcases hsy with hy | hy <;> omega
  have hres : ∀ i, i < 10 → ∀ j, j < 10 → (cellAt appWalls i j).getD 0 > 0 →
      resolveTexId appWalls (j : ℤ) (i : ℤ) = some ((cellAt appWalls i j).getD 0 - 1) ∧
      (cellAt appWalls i j).getD 0 - 1 < 6 := by decide
  by_cases hy1 : toUsizeWrap s.mapY < 10
  · by_cases hx1 : toUsizeWrap s.mapX < 10
    · have hy2 : 0 ≤ s.mapY ∧ s.mapY < 10 := by
        unfold toUsizeWrap at hy1
        omega
      have hx2 : 0 ≤ s.mapX ∧ s.mapX < 10 := by
        unfold toUsizeWrap at hx1
        omega
      unfold hitTest at hhit
      simp only [Bool.or_eq_true, decide_eq_true_eq] at hhit
      rcases hhit with ((((h1 | h1) | h1) | h1) | h1)
      · omega
      · rw [show gridH appWalls = 10 from rfl] at h1
        omega
      · omega
      · rw [show gridW appWalls = 10 from rfl] at h1
        omega
      · obtain ⟨hid, hlt⟩ := hres s.mapY.toNat (by omega) s.mapX.toNat (by omega) h1
        rw [Int.toNat_of_nonneg (by omega : (0:ℤ) ≤ s.mapX),
          Int.toNat_of_nonneg (by omega : (0:ℤ) ≤ s.mapY)] at hid
        exact ⟨(cellAt appWalls s.mapY.toNat s.mapX.toNat).getD 0 - 1, hid, hlt⟩
    · exact ⟨0, resolveTexId_col_oob _ _ hy1 (by omega), by norm_num [texturesLen]⟩
  · exact ⟨0, resolveTexId_row_oob _ _ (by omega), by norm_num [texturesLen]⟩

/-- C9 witness: the resolution applied to the ray cast rightward from the
App start, which hits cell (9, 1) carrying wall value 1. -/
theorem claim_C9_witness :
    ∃ id, resolveTexId appWalls (DdaState.mapX ⟨9, 1, FQ.fin (17/2), FQ.inf, 0⟩)
      (DdaState.mapY ⟨9, 1, FQ.fin (17/2), FQ.inf, 0⟩) = some id ∧ id < texturesLen :=
  claim_C9_texture_resolution (FQ.fin (3/2)) (FQ.fin (3/2)) (FQ.fin 1) (FQ.fin 0) 20
    ⟨9, 1, FQ.fin (17/2), FQ.inf, 0⟩ (by decide)

/-- Arithmetic core of the vertical-line spill cap: starting at chunk
`x + w*t` and stepping by `w` through a `w*h` buffer leaves `h - t`
chunks. -/
lemma vertAvail_eq (w h x topY : ℤ) (hw : 0 < w) (hh : 0 < h)
    (hx0 : 0 ≤ x) (hxw : x < w) :
    (if (w * h).toNat ≤ vertSkip w h x topY then 0
     else ((w * h).toNat - vertSkip w h x topY + (w.toNat - 1)) / w.toNat) =
    (h - min (max topY 0) h).toNat := by
  obtain ⟨wn, rfl⟩ := Int.eq_ofNat_of_zero_le hw.le
  obtain ⟨hn, rfl⟩ := Int.eq_ofNat_of_zero_le hh.le
  obtain ⟨xn, rfl⟩ := Int.eq_ofNat_of_zero_le hx0
  have ht0 : 0 ≤ min (max topY 0) (hn : ℤ) := by omega
  obtain ⟨tn, htn⟩ := Int.eq_ofNat_of_zero_le ht0
  have hskip : vertSkip (wn : ℤ) (hn : ℤ) (xn : ℤ) topY = xn + wn * tn := by
    unfold vertSkip
    rw [show min (max (xn : ℤ) 0) ((wn : ℤ) - 1) = (xn : ℤ) by omega, htn]
    rw [show ((xn : ℤ) + (wn : ℤ) * (tn : ℤ)) = ((xn + wn * tn : ℕ) : ℤ) by push_cast; ring]
    exact Int.toNat_natCast _
  have htot : ((wn : ℤ) * (hn : ℤ)).toNat = wn * hn := by
    rw [show ((wn : ℤ) * (hn : ℤ)) = ((wn * hn : ℕ) : ℤ) by push_cast; ring]
    exact Int.toNat_natCast _
  have hwt : ((wn : ℤ)).toNat = wn := Int.toNat_natCast _
  rw [hskip, htot, hwt, htn]
  rw [show ((hn : ℤ) - (tn : ℤ)) = ((hn - tn : ℕ) : ℤ) by omega, Int.toNat_natCast]
  have htn' : tn ≤ hn := by omega
  have hxw' : xn < wn := by omega
  rcases Nat.lt_or_ge tn hn with hlt | hge
  · have e : wn * hn = wn * tn + wn * (hn - tn) := by
      rw [← Nat.mul_add]
      congr 1
      omega
    have g : wn ≤ wn * (hn - tn) := Nat.le_mul_of_pos_right _ (by omega)
    rw [if_neg (by omega)]
    have e3 : wn * hn - (xn + wn * tn) + (wn - 1) = wn * (hn - tn) + (wn - 1 - xn) := by
      omega
    rw [e3, Nat.mul_add_div (by omega), Nat.div_eq_of_lt (by omega)]
    omega
  · have e : tn = hn := by omega
    subst e
    rw [if_pos (by omega)]
    omega

/-- Chunks remaining from the horizontal-line start index. -/
lemma horiRemaining (w h leftX y : ℤ) (hw : 0 < w) (hh : 0 < h)
    (hy0 : 0 ≤ y) (hyh : y < h) (hlw : leftX < w) :
    (w - max leftX 0).toNat ≤ (w * h).toNat - horiSkip w h leftX y := by
  obtain ⟨wn, rfl⟩ := Int.eq_ofNat_of_zero_le hw.le
  obtain ⟨hn, rfl⟩ := Int.eq_ofNat_of_zero_le hh.le
  obtain ⟨yn, rfl⟩ := Int.eq_ofNat_of_zero_le hy0
  have hl0 : 0 ≤ max leftX 0 := by omega
  obtain ⟨ln, hln⟩ := Int.eq_ofNat_of_zero_le hl0
  have hskip : horiSkip (wn : ℤ) (hn : ℤ) leftX (yn : ℤ) = ln + wn * yn := by
    unfold horiSkip
    rw [show min (max leftX 0) ((wn : ℤ) - 1) = max leftX 0 by omega, hln,
      show min (max (yn : ℤ) 0) ((hn : ℤ)) = (yn : ℤ) by omega]
    rw [show ((ln : ℤ) + (wn : ℤ) * (yn : ℤ)) = ((ln + wn * yn : ℕ) : ℤ) by push_cast; ring]
    exact Int.toNat_natCast _
  have htot : ((wn : ℤ) * (hn : ℤ)).toNat = wn * hn := by
    rw [show ((wn : ℤ) * (hn : ℤ)) = ((wn * hn : ℕ) : ℤ) by push_cast; ring]
    exact Int.toNat_natCast _
  rw [hskip, htot, hln]
  rw [show ((wn : ℤ) - (ln : ℤ)) = ((wn - ln : ℕ) : ℤ) by omega, Int.toNat_natCast]
  have e : wn * hn = wn * yn + wn * (hn - yn) := by
    rw [← Nat.mul_add]
    congr 1
    omega
  have g : wn ≤ wn * (hn - yn) := Nat.le_mul_of_pos_right _ (by omega)
  omega

/-- C8 counterexample: on a 4x4 viewport, the vertical line at column 0
from row -1 with height 6 is partially visible, writes four pixels, yet
returns 5 — the return value is not the drawn extent when the line is
clipped at both ends. -/
theorem claim_C8_counterexample :
    (draw_vert_line 4 4 0 (-1) 6).1 = 5 ∧
    ((draw_vert_line 4 4 0 (-1) 6).2).length = 4 ∧
    (draw_vert_line 4 4 0 (-1) 6).1 ≠ (((draw_vert_line 4 4 0 (-1) 6).2).length : ℤ) := by
  decide

/-- C8 (amended): for i32 inputs, a fully-outside nonnegative extent
writes nothing and returns a sentinel ≤ 0, no written pixel index ever
leaves the buffer, and for extents clipped on at most one side the return
value equals the number of pixels written; a vertical extent clipped on
both sides returns `h - topY` while writing only `h` pixels. -/
theorem claim_C8_line_clipping (w h x topY height leftX y width : ℤ)
    (hw : 0 < w) (hh : 0 < h) (hw31 : w < 2 ^ 31) (hh31 : h < 2 ^ 31)
    (htop31 : -(2 ^ 31) ≤ topY) (hht31 : height < 2 ^ 31)
    (hlx31 : -(2 ^ 31) ≤ leftX) (hwd31 : width < 2 ^ 31) :
    ((0 ≤ height → (x < 0 ∨ w ≤ x ∨ h ≤ topY ∨ topY + height ≤ 0) →
        (draw_vert_line w h x topY height).1 ≤ 0 ∧ (draw_vert_line w h x topY height).2 = [])
      ∧ (∀ i ∈ (draw_vert_line w h x topY height).2, i < (w * h).toNat)
      ∧ (0 ≤ height → 0 ≤ x → x < w → topY < h → 0 ≤ topY + height →
          ¬(topY < 0 ∧ h < topY + height) →
          (draw_vert_line w h x topY height).1 =
            (((draw_vert_line w h x topY height).2).length : ℤ))
      ∧ (0 ≤ x → x < w → topY < 0 → h < topY + height →
          (draw_vert_line w h x topY height).1 = h - topY ∧
            ((draw_vert_line w h x topY height).2).length = h.toNat))
    ∧ ((0 ≤ width → (y < 0 ∨ h ≤ y ∨ w ≤ leftX ∨ leftX + width ≤ 0) →
        (draw_hori_line w h leftX y width).1 ≤ 0 ∧ (draw_hori_line w h leftX y width).2 = [])
      ∧ (∀ i ∈ (draw_hori_line w h leftX y width).2, i < (w * h).toNat)
      ∧ (0 ≤ width → leftX < w → 0 ≤ y → y < h → 0 ≤ leftX + width →
          ¬(leftX < 0 ∧ w < leftX + width) →
          (draw_hori_line w h leftX y width).1 =
            (((draw_hori_line w h leftX y width).2).length : ℤ))) := by
  refine ⟨⟨?_, ?_, ?_, ?_⟩, ?_, ?_, ?_⟩
  · -- vertical, fully outside
    intro hhgt hout
    by_cases hg : x < 0 ∨ x ≥ w ∨ topY ≥ h ∨ topY + height < 0
    · unfold draw_vert_line
      rw [if_pos hg]
      exact ⟨by norm_num, rfl⟩
    · unfold draw_vert_line
      rw [if_neg hg]
      push_neg at hg
      have hact : vertActual h topY height = 0 := by
        unfold vertActual
        rw [if_neg (by omega)]
        by_cases ht : topY < 0
        · rw [if_pos ht]
          omega
        · rw [if_neg ht]
          omega
      have hcnt : vertCount w h x topY height = 0 := by
        unfold vertCount
        rw [hact]
        norm_num
      dsimp only
      rw [hact, hcnt]
      exact ⟨le_refl 0, rfl⟩
  · -- vertical, no out-of-buffer write
    intro i hi
    by_cases hg : x < 0 ∨ x ≥ w ∨ topY ≥ h ∨ topY + height < 0
    · unfold draw_vert_line at hi
      rw [if_pos hg] at hi
      simp at hi
    · unfold draw_vert_line at hi
      rw [if_neg hg] at hi
      dsimp only at hi
      rw [List.mem_map] at hi
      obtain ⟨k, hk, rfl⟩ := hi
      rw [List.mem_range] at hk
      unfold vertCount at hk
      by_cases hb : (w * h).toNat ≤ vertSkip w h x topY
      · rw [if_pos hb] at hk
        omega
      · rw [if_neg hb] at hk
        have hq := Nat.div_mul_le_self
          ((w * h).toNat - vertSkip w h x topY + (w.toNat - 1)) w.toNat
        have hkq : (k + 1) * w.toNat ≤
            (((w * h).toNat - vertSkip w h x topY + (w.toNat - 1)) / w.toNat) * w.toNat :=
          Nat.mul_le_mul_right _ (by omega)
        have h3 : (k + 1) * w.toNat = k * w.toNat + w.toNat := by ring
        omega
  · -- vertical, one-sided clipping: return = written count
    intro hhgt hx0 hxw hth hte hnb
    unfold draw_vert_line
    rw [if_neg (by omega)]
    dsimp only
    rw [List.length_map, List.length_range]
    unfold vertCount
    rw [vertAvail_eq w h x topY hw hh hx0 hxw]
    by_cases ht : topY < 0
    · have hact : vertActual h topY height = topY + height := by
        unfold vertActual
        rw [if_neg (by omega), if_pos ht]
        omega
      rw [hact, show min (max topY 0) h = 0 by omega,
        show (topY + height) % (2 ^ 64 : ℤ) = topY + height by omega]
      omega
    · by_cases hte2 : topY + height > h
      · have hact : vertActual h topY height = h - topY := by
          unfold vertActual
          rw [if_pos hte2]
        rw [hact, show min (max topY 0) h = topY by omega,
          show (h - topY) % (2 ^ 64 : ℤ) = h - topY by omega]
        omega
      · have hact : vertActual h topY height = height := by
          unfold vertActual
          rw [if_neg (by omega), if_neg ht]
        rw [hact, show min (max topY 0) h = topY by omega,
          show height % (2 ^ 64 : ℤ) = height by omega]
        omega
  · -- vertical, clipped on both sides: overcounting return
    intro hx0 hxw ht hgt
    unfold draw_vert_line
    rw [if_neg (by omega)]
    dsimp only
    have hact : vertActual h topY height = h - topY := by
      unfold vertActual
      rw [if_pos (by omega)]
    constructor
    · exact hact
    · rw [List.length_map, List.length_range]
      unfold vertCount
      rw [vertAvail_eq w h x topY hw hh hx0 hxw, hact,
        show min (max topY 0) h = 0 by omega,
        show (h - topY) % (2 ^ 64 : ℤ) = h - topY by omega]
      omega
  · -- horizontal, fully outside
    intro hwd hout
    by_cases hg : y < 0 ∨ y ≥ h ∨ leftX ≥ w ∨ leftX + width < 0
    · unfold draw_hori_line
      rw [if_pos hg]
      exact ⟨by norm_num, rfl⟩
    · unfold draw_hori_line
      rw [if_neg hg]
      push_neg at hg
      have hact : horiActual w leftX width = 0 := by
        unfold horiActual
        rw [if_neg (by omega)]
        by_cases hl : leftX < 0
        · rw [if_pos hl]
          omega
        · rw [if_neg hl]
          omega
      have hcnt : horiCount w h leftX y width = 0 := by
        unfold horiCount
        rw [hact]
        norm_num
      dsimp only
      rw [hact, hcnt]
      exact ⟨le_refl 0, rfl⟩
  · -- horizontal, no out-of-buffer write
    intro i hi
    by_cases hg : y < 0 ∨ y ≥ h ∨ leftX ≥ w ∨ leftX + width < 0
    · unfold draw_hori_line at hi
      rw [if_pos hg] at hi
      simp at hi
    · unfold draw_hori_line at hi
      rw [if_neg hg] at hi
      dsimp only at hi
      rw [List.mem_map] at hi
      obtain ⟨k, hk, rfl⟩ := hi
      rw [List.mem_range] at hk
      unfold horiCount at hk
      omega
  · -- horizontal, one-sided clipping: return = written count
    intro hwd hlw hy0 hyh hte hnb
    unfold draw_hori_line
    rw [if_neg (by omega)]
    dsimp only
    rw [List.length_map, List.length_range]
    have hrem := horiRemaining w h leftX y hw hh hy0 hyh hlw
    unfold horiCount
    by_cases hl : leftX < 0
    · have hact : horiActual w leftX width = leftX + width := by
        unfold horiActual
        rw [if_neg (by omega), if_pos hl]
        omega
      rw [hact, show (leftX + width) % (2 ^ 64 : ℤ) = leftX + width by omega]
      omega
    · by_cases hgt : leftX + width > w
      · have hact : horiActual w leftX width = w - leftX := by
          unfold horiActual
          rw [if_pos hgt]
        rw [hact, show (w - leftX) % (2 ^ 64 : ℤ) = w - leftX by omega]
        omega
      · have hact : horiActual w leftX width = width := by
          unfold horiActual
          rw [if_neg (by omega), if_neg hl]
        rw [hact, show width % (2 ^ 64 : ℤ) = width by omega]
        omega

/-- C8 witness: the clipping statement applied to an in-viewport line. -/
theorem claim_C8_witness :
    (draw_vert_line 4 4 1 1 2).1 = (((draw_vert_line 4 4 1 1 2).2).length : ℤ) :=
  (claim_C8_line_clipping 4 4 1 1 2 0 0 0 (by norm_num) (by norm_num) (by norm_num)
      (by norm_num) (by norm_num) (by norm_num) (by norm_num) (by norm_num)).1.2.2.1
    (by norm_num) (by norm_num) (by norm_num) (by norm_num) (by norm_num) (by omega)

end Wolfenlike
